import Mathlib

/-!
Verification of the ai-insight-report collection/analysis/report pipeline.

The Python sources are shallowly embedded: strings are `List Char`,
datetimes are integer timestamps (seconds), and each fallible network or
parse step is modelled by an explicit outcome value.  Every definition
mirrors the corresponding function of `src/scripts`, with the mirrored
file and function named in its doc comment.
-/

/- ## Text utilities shared by the embedded modules -/

/-- ASCII lower-casing of one character; non-ASCII characters (Hangul, the
full-width ampersand, punctuation) are unchanged, matching `str.lower()`
on the character set this repository manipulates. -/
def lowerC (c : Char) : Char :=
  if 'A' ≤ c ∧ c ≤ 'Z' then Char.ofNat (c.toNat + 32) else c

/-- Lower-casing of a whole string. -/
def lowerS (s : List Char) : List Char :=
  s.map lowerC

/-- Does `pat` occur at the very start of `s`? -/
def headMatch : List Char → List Char → Bool
  | [], _ => true
  | _ :: _, [] => false
  | p :: ps, c :: cs => p == c && headMatch ps cs

/-- Python's `pat in s` substring test. -/
def hasSub (s pat : List Char) : Bool :=
  match s with
  | [] => pat.isEmpty
  | _ :: cs => headMatch pat s || hasSub cs pat

/-- Python `\s` / `str.strip()` whitespace set (ASCII part). -/
def isWsC (c : Char) : Bool :=
  c == ' ' || c == '\t' || c == '\n' || c == '\r' || c == '\x0b' || c == '\x0c'

/-- Python `str.strip()`: drop leading and trailing whitespace. -/
def stripWs (s : List Char) : List Char :=
  ((s.dropWhile isWsC).reverse.dropWhile isWsC).reverse

/- ## src/scripts/collector.py — NaverBlogCollector -/

/-- Outcome of reading `post['published']` and feeding it to
`dateutil.parser.parse`:
* `missing` — the key is absent, so `post['published']` raises `KeyError`;
* `emptyStr` — the key holds the empty (falsy) string;
* `parsed d` — the string parses to the timestamp `d`;
* `unparseable` — the string is non-empty and `parse` raises. -/
inductive Pub where
  | missing : Pub
  | emptyStr : Pub
  | parsed : Int → Pub
  | unparseable : Pub
deriving DecidableEq

/-- An RSS feed entry as built by `NaverBlogCollector._fetch_rss_feed`. -/
structure RssPost where
  title : List Char
  link : List Char
  published : Pub
  summary : List Char
deriving DecidableEq

/-- Seconds in one day, the unit behind `timedelta(days=…)`. -/
def dayLen : Int := 86400

/-- Embedding of `NaverBlogCollector._filter_recent_posts` (collector.py
lines 92–124): for each post the loop body runs under `try`:
* `missing` — `post['published']` raises `KeyError`, the handler appends
  the post;
* `emptyStr` — the `if post['published']:` guard is false, nothing is
  appended and nothing raises;
* `parsed d` — the post is appended iff `cutoff_date <= d <= base_date`;
* `unparseable` — `date_parser.parse` raises, the handler appends. -/
def filterRecentPosts (cutoff base : Int) : List RssPost → List RssPost
  | [] => []
  | p :: ps =>
    match p.published with
    | .missing => p :: filterRecentPosts cutoff base ps
    | .emptyStr => filterRecentPosts cutoff base ps
    | .parsed d =>
        if cutoff ≤ d ∧ d ≤ base then p :: filterRecentPosts cutoff base ps
        else filterRecentPosts cutoff base ps
    | .unparseable => p :: filterRecentPosts cutoff base ps

/-- The cutoff computed by `_filter_recent_posts`:
`base_date - timedelta(days=days_lookback)`. -/
def recencyCutoff (base daysLookback : Int) : Int :=
  base - daysLookback * dayLen

/-- Modelled from the claim's words: a post is included iff its timestamp
parses into `[cutoff, base]`, or fails to parse (fail-open), with no post
dropped for any other reason — in particular a missing or empty
`published` field is claimed not to drop the post. -/
def claimIncludes (cutoff base : Int) : Pub → Bool
  | .parsed d => decide (cutoff ≤ d) && decide (d ≤ base)
  | _ => true

/-- The inclusion rule the code actually applies, post by post. -/
def keepRecent (cutoff base : Int) : Pub → Bool
  | .missing => true
  | .emptyStr => false
  | .parsed d => decide (cutoff ≤ d) && decide (d ≤ base)
  | .unparseable => true

theorem filterRecentPosts_eq_filter (cutoff base : Int) (posts : List RssPost) :
    filterRecentPosts cutoff base posts
      = posts.filter (fun p => keepRecent cutoff base p.published) := by
  induction posts with
  | nil => rfl
  | cons p ps ih =>
    cases hp : p.published with
    | missing => simp [filterRecentPosts, hp, keepRecent, List.filter, ih]
    | emptyStr => simp [filterRecentPosts, hp, keepRecent, List.filter, ih]
    | parsed d =>
      by_cases hd : cutoff ≤ d ∧ d ≤ base
      · simp [filterRecentPosts, hp, keepRecent, List.filter, ih, hd.1, hd.2]
      · rcases Decidable.not_and_iff_or_not.mp hd with h1 | h1 <;>
          simp [filterRecentPosts, hp, keepRecent, List.filter, ih, h1]
    | unparseable => simp [filterRecentPosts, hp, keepRecent, List.filter, ih]

/-- A concrete post whose `published` string is present but empty. -/
def emptyPubPost : RssPost :=
  ⟨"제목".toList, "https://blog.example/1".toList, Pub.emptyStr, "요약".toList⟩

/-- C1 counterexample: the fail-open claim says a post with an empty
`published` field is included, but `_filter_recent_posts` silently drops
it (the `if post['published']:` guard is false and no exception fires). -/
theorem filter_recent_c1_counterexample :
    claimIncludes (recencyCutoff 1000000 7) 1000000 emptyPubPost.published = true
      ∧ filterRecentPosts (recencyCutoff 1000000 7) 1000000 [emptyPubPost] = [] := by
  constructor
  · rfl
  · rfl

/-- C1 (amended): `_filter_recent_posts` keeps exactly the posts whose
`published` field parses to a timestamp inside the inclusive window
`[base - lookbackDays, base]`, or is non-empty and unparseable (fail-open),
or is missing entirely (the `KeyError` is caught by the same fail-open
handler); a post whose `published` field is the empty string is dropped.
Order is preserved and nothing else affects inclusion. -/
theorem filter_recent_amended (base daysLookback : Int) (posts : List RssPost) :
    filterRecentPosts (recencyCutoff base daysLookback) base posts
      = posts.filter (fun p =>
          match p.published with
          | .parsed d => decide (base - daysLookback * dayLen ≤ d) && decide (d ≤ base)
          | .emptyStr => false
          | _ => true) := by
  rw [filterRecentPosts_eq_filter]
  apply List.filter_congr
  intro p _
  cases p.published <;> rfl

/-- A detail record as produced by `_scrape_post_detail` (the
`collected_at` wall-clock field is not modelled). -/
structure DetailedPost where
  title : List Char
  link : List Char
  published : Pub
  content : List Char
deriving DecidableEq

/-- Outcome of the network fetch plus selector-based extraction inside
`_scrape_post_detail`: `ok ex` means the request succeeded and the two
content selectors produced `ex` (possibly empty, in which case the code
falls back to the RSS summary); `fetchFail` means the request or parse
raised, landing in the function's own `except` handler. -/
inductive ScrapeOutcome where
  | ok : List Char → ScrapeOutcome
  | fetchFail : ScrapeOutcome
deriving DecidableEq

/-- Embedding of `NaverBlogCollector._scrape_post_detail` (collector.py
lines 126–177).  Every exception inside the function is caught by its own
handler, which returns the RSS-level fields with `content` set to the RSS
summary — the function never raises and never returns a falsy value. -/
def scrapePostDetail (p : RssPost) (o : ScrapeOutcome) : DetailedPost :=
  match o with
  | .ok ex => ⟨p.title, p.link, p.published, (if ex.isEmpty then p.summary else ex).take 5000⟩
  | .fetchFail => ⟨p.title, p.link, p.published, p.summary⟩

/-- Embedding of `NaverBlogCollector.collect_posts` (collector.py lines
33–66): filter the feed entries to the recency window, keep the first
`maxPosts`, and scrape each one.  The `oracle` gives each post's fetch
outcome.  The loop's own `except … continue` never fires in this model
because `_scrape_post_detail` catches everything itself, and its result —
a non-empty dict — is always truthy, so every scraped item is appended. -/
def collectPosts (oracle : RssPost → ScrapeOutcome) (cutoff base : Int)
    (maxPosts : Nat) (rss : List RssPost) : List DetailedPost :=
  ((filterRecentPosts cutoff base rss).take maxPosts).map
    (fun p => scrapePostDetail p (oracle p))

/-- A concrete recent feed entry used in the C2 counterexample. -/
def recentPost : RssPost :=
  ⟨"새 글".toList, "https://blog.example/2".toList, Pub.parsed 500, "피드 요약".toList⟩

/-- C2 counterexample: with a single in-window feed item whose detail
fetch fails, the item still appears in the returned sequence (as a
fallback record carrying the RSS summary as content) — it is not
skipped, because `_scrape_post_detail` swallows the error and returns a
truthy fallback dict. -/
theorem collect_posts_c2_counterexample :
    collectPosts (fun _ => ScrapeOutcome.fetchFail) 0 1000 20 [recentPost]
      = [⟨recentPost.title, recentPost.link, recentPost.published, recentPost.summary⟩]
    ∧ (collectPosts (fun _ => ScrapeOutcome.fetchFail) 0 1000 20 [recentPost]).length ≠ 0 := by
  constructor
  · rfl
  · decide

/-- C2 (amended): a per-item fetch or parse error during detail scraping
does not remove the item — `collect_posts` returns exactly one record per
selected feed item, in order (so collection continues and the run is not
aborted), and an item whose fetch failed appears as a fallback record
built from its RSS fields with the RSS summary as its content. -/
theorem collect_posts_amended (oracle : RssPost → ScrapeOutcome)
    (cutoff base : Int) (maxPosts : Nat) (rss : List RssPost) :
    (collectPosts oracle cutoff base maxPosts rss).map DetailedPost.link
        = ((filterRecentPosts cutoff base rss).take maxPosts).map RssPost.link
      ∧ ∀ p ∈ (filterRecentPosts cutoff base rss).take maxPosts,
          oracle p = ScrapeOutcome.fetchFail →
            ⟨p.title, p.link, p.published, p.summary⟩ ∈ collectPosts oracle cutoff base maxPosts rss := by
  constructor
  · unfold collectPosts
    rw [List.map_map]
    apply List.map_congr_left
    intro p _
    cases h : oracle p <;> simp [Function.comp, scrapePostDetail, h]
  · intro p hp ho
    unfold collectPosts
    refine List.mem_map.mpr ⟨p, hp, ?_⟩
    rw [ho]
    rfl

/-- Witness for `collect_posts_amended` at a concrete run. -/
theorem collect_posts_amended_witness :
    ⟨recentPost.title, recentPost.link, recentPost.published, recentPost.summary⟩
      ∈ collectPosts (fun _ => ScrapeOutcome.fetchFail) 0 1000 20 [recentPost] := by
  exact (collect_posts_amended (fun _ => ScrapeOutcome.fetchFail) 0 1000 20 [recentPost]).2
    recentPost (by decide) rfl

/- ## src/scripts/analyzer.py — PostAnalyzer -/

/-- Keyword list of the category `AI 기술` (analyzer.py lines 20–25). -/
def aiKeywords : List (List Char) :=
  ["AI".toList, "인공지능".toList, "머신러닝".toList, "딥러닝".toList, "LLM".toList,
   "GPT".toList, "ChatGPT".toList, "생성형".toList, "신경망".toList, "학습".toList,
   "알고리즘".toList, "데이터".toList, "모델".toList, "transformer".toList,
   "neural".toList, "machine learning".toList, "deep learning".toList,
   "언어모델".toList, "AGI".toList, "자연어처리".toList, "NLP".toList,
   "컴퓨터비전".toList, "CV".toList]

/-- Keyword list of the category `과학 기술` (analyzer.py lines 26–31). -/
def sciKeywords : List (List Char) :=
  ["과학".toList, "물리".toList, "화학".toList, "생물".toList, "우주".toList,
   "천문".toList, "양자".toList, "나노".toList, "신소재".toList, "바이오".toList,
   "유전".toList, "DNA".toList, "RNA".toList, "단백질".toList, "입자".toList,
   "분자".toList, "원자".toList, "실험".toList, "연구소".toList, "발견".toList,
   "의학".toList, "치료".toList, "질병".toList, "백신".toList, "암".toList,
   "세포".toList]

/-- Keyword list of the category `산업 동향` (analyzer.py lines 32–37). -/
def indKeywords : List (List Char) :=
  ["기업".toList, "시장".toList, "투자".toList, "매출".toList, "수익".toList,
   "주가".toList, "상장".toList, "IPO".toList, "M&A".toList, "인수".toList,
   "합병".toList, "스타트업".toList, "벤처".toList, "산업".toList, "업계".toList,
   "비즈니스".toList, "경영".toList, "전략".toList, "CEO".toList, "제품".toList,
   "출시".toList, "서비스".toList, "플랫폼".toList]

/-- Keyword list of the category `연구 개발` (analyzer.py lines 38–42). -/
def rndKeywords : List (List Char) :=
  ["연구".toList, "개발".toList, "논문".toList, "저널".toList, "학회".toList,
   "발표".toList, "특허".toList, "실험".toList, "테스트".toList,
   "프로토타입".toList, "R&D".toList, "연구원".toList, "박사".toList,
   "대학".toList, "연구소".toList, "랩".toList, "laboratory".toList,
   "혁신".toList, "기술개발".toList]

/-- Keyword list of the category `정책 및 규제` (analyzer.py lines 43–47). -/
def polKeywords : List (List Char) :=
  ["정책".toList, "규제".toList, "법".toList, "법률".toList, "정부".toList,
   "국회".toList, "의회".toList, "가이드라인".toList, "지침".toList,
   "규정".toList, "제도".toList, "법안".toList, "개정".toList, "허가".toList,
   "승인".toList, "인증".toList, "표준".toList, "안전".toList, "보안".toList]

/-- The catch-all category name. -/
def catOther : List Char := "기타".toList

/-- The `self.category_keywords` table of `PostAnalyzer.__init__`
(analyzer.py lines 19–48), in its declaration order. -/
def categoryKeywords : List (List Char × List (List Char)) :=
  [("AI 기술".toList, aiKeywords), ("과학 기술".toList, sciKeywords),
   ("산업 동향".toList, indKeywords), ("연구 개발".toList, rndKeywords),
   ("정책 및 규제".toList, polKeywords)]

/-- One category's score in `PostAnalyzer._classify_category`: +2 per
keyword found (case-insensitively) in the title, +1 per keyword found in
the content. -/
def catScore (kws : List (List Char)) (title content : List Char) : Nat :=
  kws.foldl (fun acc kw =>
    acc + (if hasSub (lowerS title) (lowerS kw) then 2 else 0)
        + (if hasSub (lowerS content) (lowerS kw) then 1 else 0)) 0

/-- Python's `max(iterable, key=…)` starting from a first element: the
current best is replaced only on a strictly greater key, so the first
element attaining the maximum wins. -/
def pyMaxBy (b : List Char × Nat) : List (List Char × Nat) → List Char × Nat
  | [] => b
  | p :: rest => pyMaxBy (if b.2 < p.2 then p else b) rest

/-- Embedding of `PostAnalyzer._classify_category` (analyzer.py lines
90–113), generalized over the category table it iterates:
compute every category's score, and if the greatest score is positive
return `max(scores, key=scores.get)`, else the catch-all category. -/
def classifyWith (table : List (List Char × List (List Char)))
    (title content : List Char) : List Char :=
  match table with
  | [] => catOther
  | e :: rest =>
    let s := (e.1, catScore e.2 title content)
    let scoresRest := rest.map (fun p => (p.1, catScore p.2 title content))
    if 0 < ((s :: scoresRest).map Prod.snd).foldl Nat.max 0 then (pyMaxBy s scoresRest).1
    else catOther

/-- The classifier applied to the fixed table of `PostAnalyzer.__init__`. -/
def classifyCategory (title content : List Char) : List Char :=
  classifyWith categoryKeywords title content

theorem pyMaxBy_all_le (l : List (List Char × Nat)) :
    ∀ b : List Char × Nat, (∀ x ∈ l, x.2 ≤ b.2) → pyMaxBy b l = b := by
  induction l with
  | nil => intro b _; rfl
  | cons p rest ih =>
    intro b h
    have hp : p.2 ≤ b.2 := h p (List.mem_cons_self _ _)
    have : ¬ b.2 < p.2 := not_lt.mpr hp
    simp only [pyMaxBy, if_neg this]
    exact ih b (fun x hx => h x (List.mem_cons_of_mem _ hx))

theorem pyMaxBy_first_max (pre : List (List Char × Nat)) :
    ∀ (b c : List Char × Nat) (suf : List (List Char × Nat)),
      b.2 < c.2 → (∀ x ∈ pre, x.2 < c.2) → (∀ x ∈ suf, x.2 ≤ c.2) →
        pyMaxBy b (pre ++ c :: suf) = c := by
  induction pre with
  | nil =>
    intro b c suf hb _ hsuf
    simp only [List.nil_append, pyMaxBy, if_pos hb]
    exact pyMaxBy_all_le suf c hsuf
  | cons p pre' ih =>
    intro b c suf hb hpre hsuf
    simp only [List.cons_append, pyMaxBy]
    by_cases hpb : b.2 < p.2
    · rw [if_pos hpb]
      exact ih p c suf (hpre p (List.mem_cons_self _ _)) (fun x hx => hpre x (List.mem_cons_of_mem _ hx)) hsuf
    · rw [if_neg hpb]
      exact ih b c suf hb (fun x hx => hpre x (List.mem_cons_of_mem _ hx)) hsuf

theorem le_foldl_natMax (l : List Nat) : ∀ a : Nat, a ≤ l.foldl Nat.max a := by
  induction l with
  | nil => intro a; exact le_refl a
  | cons x xs ih => intro a; exact le_trans (Nat.le_max_left a x) (ih (Nat.max a x))

theorem mem_le_foldl_natMax (l : List Nat) :
    ∀ (a x : Nat), x ∈ l → x ≤ l.foldl Nat.max a := by
  induction l with
  | nil => intro a x hx; cases hx
  | cons y ys ih =>
    intro a x hx
    rcases List.mem_cons.mp hx with h | h
    · subst h
      exact le_trans (Nat.le_max_right a x) (le_foldl_natMax ys _)
    · exact ih _ x h

theorem foldl_natMax_zero (l : List Nat) (h : ∀ x ∈ l, x = 0) :
    l.foldl Nat.max 0 = 0 := by
  induction l with
  | nil => rfl
  | cons x xs ih =>
    have hx : x = 0 := h x (List.mem_cons_self _ _)
    subst hx
    simpa using ih (fun y hy => h y (List.mem_cons_of_mem _ hy))

theorem catScore_foldl_shift (kws : List (List Char)) (title content : List Char) :
    ∀ n : Nat,
      kws.foldl (fun acc kw =>
          acc + (if hasSub (lowerS title) (lowerS kw) then 2 else 0)
              + (if hasSub (lowerS content) (lowerS kw) then 1 else 0)) n
        = n + 2 * kws.countP (fun kw => hasSub (lowerS title) (lowerS kw))
            + kws.countP (fun kw => hasSub (lowerS content) (lowerS kw)) := by
  induction kws with
  | nil => intro n; simp
  | cons kw kws ih =>
    intro n
    simp only [List.foldl_cons, List.countP_cons, ih]
    by_cases h1 : hasSub (lowerS title) (lowerS kw) <;>
      by_cases h2 : hasSub (lowerS content) (lowerS kw) <;>
        simp [h1, h2] <;> omega

/-- The per-category score equals the spec's weighted-count formula. -/
theorem catScore_formula (kws : List (List Char)) (title content : List Char) :
    catScore kws title content
      = 2 * kws.countP (fun kw => hasSub (lowerS title) (lowerS kw))
        + kws.countP (fun kw => hasSub (lowerS content) (lowerS kw)) := by
  have := catScore_foldl_shift kws title content 0
  simpa [catScore] using this

theorem classifyWith_all_zero (table : List (List Char × List (List Char)))
    (title content : List Char)
    (h : ∀ p ∈ table, catScore p.2 title content = 0) :
    classifyWith table title content = catOther := by
  cases table with
  | nil => rfl
  | cons e rest =>
    simp only [classifyWith]
    have hz : ∀ x ∈ ((e.1, catScore e.2 title content)
        :: rest.map (fun p => (p.1, catScore p.2 title content))).map Prod.snd, x = 0 := by
      intro x hx
      simp only [List.map_cons, List.mem_cons, List.map_map, List.mem_map] at hx
      rcases hx with h1 | ⟨p, hp, h2⟩
      · rw [h1]; exact h e (List.mem_cons_self _ _)
      · rw [← h2]; exact h p (List.mem_cons_of_mem _ hp)
    rw [foldl_natMax_zero _ hz]
    simp

theorem classifyWith_first_max (pre : List (List Char × List (List Char)))
    (entry : List Char × List (List Char)) (suf : List (List Char × List (List Char)))
    (title content : List Char)
    (h0 : 0 < catScore entry.2 title content)
    (hpre : ∀ p ∈ pre, catScore p.2 title content < catScore entry.2 title content)
    (hsuf : ∀ p ∈ suf, catScore p.2 title content ≤ catScore entry.2 title content) :
    classifyWith (pre ++ entry :: suf) title content = entry.1 := by
  set f : (List Char × List (List Char)) → List Char × Nat :=
    fun p => (p.1, catScore p.2 title content) with hf
  cases pre with
  | nil =>
    simp only [List.nil_append, classifyWith]
    have hmax : 0 < ((f entry :: suf.map f).map Prod.snd).foldl Nat.max 0 := by
      refine lt_of_lt_of_le h0 (mem_le_foldl_natMax _ 0 _ ?_)
      simp [hf]
    rw [if_pos hmax]
    have : pyMaxBy (f entry) (suf.map f) = f entry := by
      apply pyMaxBy_all_le
      intro x hx
      rcases List.mem_map.mp hx with ⟨p, hp, hpx⟩
      rw [← hpx]
      exact hsuf p hp
    rw [this]
  | cons q pre' =>
    simp only [List.cons_append, classifyWith]
    have hmem : catScore entry.2 title content
        ∈ ((f q :: (pre' ++ entry :: suf).map f).map Prod.snd) := by
      simp only [List.map_cons, List.mem_cons, List.map_map, List.mem_map]
      right
      exact ⟨entry, by simp, rfl⟩
    have hmax : 0 < ((f q :: (pre' ++ entry :: suf).map f).map Prod.snd).foldl Nat.max 0 :=
      lt_of_lt_of_le h0 (mem_le_foldl_natMax _ 0 _ hmem)
    rw [if_pos hmax]
    have hsplit : (pre' ++ entry :: suf).map f = pre'.map f ++ f entry :: suf.map f := by
      simp
    rw [hsplit]
    have : pyMaxBy (f q) (pre'.map f ++ f entry :: suf.map f) = f entry := by
      apply pyMaxBy_first_max
      · exact hpre q (List.mem_cons_self _ _)
      · intro x hx
        rcases List.mem_map.mp hx with ⟨p, hp, hpx⟩
        rw [← hpx]
        exact hpre p (List.mem_cons_of_mem _ hp)
      · intro x hx
        rcases List.mem_map.mp hx with ⟨p, hp, hpx⟩
        rw [← hpx]
        exact hsuf p hp
    rw [this]

/-- C3: the classifier scores each category as twice the number of its
keywords found case-insensitively in the title plus the number found in
the content; it returns the catch-all `기타` when every category scores
zero, and otherwise the earliest-declared category attaining the maximum
score (so a unique strict maximum is returned, and ties go to declaration
order).  As a total Lean function it never raises and is deterministic. -/
theorem classify_category_spec (title content : List Char) :
    (∀ p ∈ categoryKeywords,
        catScore p.2 title content
          = 2 * p.2.countP (fun kw => hasSub (lowerS title) (lowerS kw))
            + p.2.countP (fun kw => hasSub (lowerS content) (lowerS kw)))
    ∧ ((∀ p ∈ categoryKeywords, catScore p.2 title content = 0) →
        classifyCategory title content = catOther)
    ∧ (∀ pre entry suf, categoryKeywords = pre ++ entry :: suf →
        0 < catScore entry.2 title content →
        (∀ p ∈ pre, catScore p.2 title content < catScore entry.2 title content) →
        (∀ p ∈ suf, catScore p.2 title content ≤ catScore entry.2 title content) →
        classifyCategory title content = entry.1) := by
  refine ⟨fun p _ => catScore_formula p.2 title content, ?_, ?_⟩
  · intro h
    exact classifyWith_all_zero categoryKeywords title content h
  · intro pre entry suf hsplit h0 hpre hsuf
    unfold classifyCategory
    rw [hsplit]
    exact classifyWith_first_max pre entry suf title content h0 hpre hsuf

/-- Witness for `classify_category_spec`: the title `법` scores 2 for the
last-declared category `정책 및 규제` and 0 for the four earlier ones, so
the classifier returns `정책 및 규제`. -/
theorem classify_category_spec_witness :
    classifyCategory ("법".toList) [] = "정책 및 규제".toList := by
  exact (classify_category_spec ("법".toList) []).2.2
    [("AI 기술".toList, aiKeywords), ("과학 기술".toList, sciKeywords),
     ("산업 동향".toList, indKeywords), ("연구 개발".toList, rndKeywords)]
    ("정책 및 규제".toList, polKeywords) [] rfl (by decide) (by decide) (by decide)

/-- Embedding of `re.split(r'[.!?]\s+', content)`: scanning left to
right, a sentence boundary is a terminal punctuation character whose next
character is whitespace; the punctuation and the maximal following
whitespace run are consumed.  `cur` holds the current piece reversed.
The `fuel` argument only makes the recursion structural: every step
consumes at least one character, so starting the fuel at the input length
keeps the zero-fuel base case unreachable. -/
def splitSentGo : Nat → List Char → List Char → List (List Char)
  | 0, cur, _ => [cur.reverse]
  | _ + 1, cur, [] => [cur.reverse]
  | fuel + 1, cur, c :: rest =>
    if (c == '.' || c == '!' || c == '?')
        && (match rest with | d :: _ => isWsC d | [] => false)
    then cur.reverse :: splitSentGo fuel [] (rest.dropWhile isWsC)
    else splitSentGo fuel (c :: cur) rest

/-- Sentence segmentation used by `_create_simple_summary`. -/
def splitSentences (content : List Char) : List (List Char) :=
  splitSentGo content.length [] content

/-- The surviving candidate sentences: stripped pieces strictly longer
than 10 characters (`[s.strip() for s in sentences if len(s.strip()) > 10]`,
analyzer.py line 124). -/
def summarySurvivors (content : List Char) : List (List Char) :=
  ((splitSentences content).map stripWs).filter (fun s => 10 < s.length)

/-- The greedy accumulation loop of `_create_simple_summary` (analyzer.py
lines 131–140): break before a sentence that would push the running total
over 300 characters, and break once two sentences are accumulated. -/
def pickSummary : List (List Char) → List (List Char) → Nat → List (List Char)
  | [], acc, _ => acc.reverse
  | s :: rest, acc, total =>
    if 300 < total + s.length then acc.reverse
    else if 2 ≤ acc.length + 1 then (s :: acc).reverse
    else pickSummary rest (s :: acc) (total + s.length)

/-- Embedding of `PostAnalyzer._create_simple_summary` (analyzer.py lines
115–146). -/
def simpleSummary (content : List Char) : List Char :=
  if content.isEmpty then "내용을 확인할 수 없습니다.".toList
  else
    let sentences := summarySurvivors content
    if sentences.isEmpty then stripWs (content.take 200) ++ "...".toList
    else
      let sel := pickSummary (sentences.take 5) [] 0
      if sel.isEmpty then stripWs (content.take 200) ++ "...".toList
      else List.intercalate (". ".toList) sel ++ ".".toList

/-- C9: on empty content the summarizer returns the fixed placeholder,
not the bare ellipsis that the 200-character truncation fallback would
produce. -/
theorem simple_summary_empty_placeholder :
    simpleSummary [] = "내용을 확인할 수 없습니다.".toList
      ∧ simpleSummary [] ≠ "...".toList
      ∧ simpleSummary [] ≠ stripWs (List.take 200 ([] : List Char)) ++ "...".toList := by
  refine ⟨rfl, by decide, by decide⟩

/-- The C4 boundary input: two sentences of exactly 10 characters each. -/
def tenCharContent : List Char := "aaaaaaaaaa. bbbbbbbbbb".toList

/-- C4 counterexample: both candidate sentences strip to exactly 10
characters, yet neither survives (`len(s.strip()) > 10` is strict), so
the summarizer returns the 200-character truncation fallback instead of
the joined sentences the claim predicts. -/
theorem simple_summary_c4_counterexample :
    ((splitSentences tenCharContent).map stripWs).map List.length = [10, 10]
      ∧ simpleSummary tenCharContent = "aaaaaaaaaa. bbbbbbbbbb...".toList
      ∧ simpleSummary tenCharContent ≠ "aaaaaaaaaa. bbbbbbbbbb.".toList := by
  refine ⟨by decide, by decide, by decide⟩

/-- C4 (amended): the summarizer splits at terminal punctuation followed
by whitespace, keeps only stripped sentences strictly longer than 10
characters (an exactly-10-character sentence is discarded), falls back to
the whitespace-trimmed first 200 characters plus an ellipsis when no
sentence survives or when the greedy scan accepts none, and otherwise the
result is determined by the first two survivors: one survivor within the
300 budget yields that sentence plus a period; two survivors whose sum
exceeds the budget yield the first sentence plus a period; two survivors
within the budget yield both joined with a period-space and a trailing
period. -/
theorem simple_summary_amended (content : List Char) (hne : content ≠ []) :
    (summarySurvivors content = [] →
        simpleSummary content = stripWs (content.take 200) ++ "...".toList)
    ∧ (∀ s rest, summarySurvivors content = s :: rest → 300 < s.length →
        simpleSummary content = stripWs (content.take 200) ++ "...".toList)
    ∧ (∀ s, summarySurvivors content = [s] → s.length ≤ 300 →
        simpleSummary content = s ++ ".".toList)
    ∧ (∀ s t rest, summarySurvivors content = s :: t :: rest →
        s.length ≤ 300 → 300 < s.length + t.length →
        simpleSummary content = s ++ ".".toList)
    ∧ (∀ s t rest, summarySurvivors content = s :: t :: rest →
        s.length ≤ 300 → s.length + t.length ≤ 300 →
        simpleSummary content = s ++ ". ".toList ++ t ++ ".".toList) := by
  have hE : content.isEmpty = false := by
    cases content with
    | nil => exact absurd rfl hne
    | cons c cs => rfl
  refine ⟨?_, ?_, ?_, ?_, ?_⟩
  · intro h
    simp [simpleSummary, hE, h]
  · intro s rest h hlen
    have hsel : pickSummary (s :: rest.take 4) [] 0 = [] := by
      simp only [pickSummary, List.length_nil, Nat.zero_add]
      rw [if_pos (by omega)]
      rfl
    simp only [simpleSummary, hE, Bool.false_eq_true, if_false, h, List.isEmpty_cons,
      List.take_succ_cons, hsel, List.isEmpty_nil, if_true]
  · intro s h hlen
    have hsel : pickSummary (s :: List.take 4 [] ) [] 0 = [s] := by
      simp only [pickSummary, List.length_nil, Nat.zero_add, List.take_nil]
      rw [if_neg (by omega), if_neg (by omega)]
      rfl
    simp only [simpleSummary, hE, Bool.false_eq_true, if_false, h, List.isEmpty_cons,
      List.take_succ_cons, hsel, List.isEmpty_nil]
    simp [List.intercalate]
  · intro s t rest h h1 h2
    have hsel : pickSummary (s :: t :: rest.take 3) [] 0 = [s] := by
      simp only [pickSummary, List.length_nil, Nat.zero_add]
      rw [if_neg (by omega), if_neg (by omega)]
      simp only [pickSummary, List.length_cons, List.length_nil]
      rw [if_pos (by omega)]
      rfl
    simp only [simpleSummary, hE, Bool.false_eq_true, if_false, h, List.isEmpty_cons,
      List.take_succ_cons, hsel, List.isEmpty_nil]
    simp [List.intercalate]
  · intro s t rest h h1 h2
    have hsel : pickSummary (s :: t :: rest.take 3) [] 0 = [s, t] := by
      simp only [pickSummary, List.length_nil, Nat.zero_add]
      rw [if_neg (by omega), if_neg (by omega)]
      simp only [pickSummary, List.length_cons, List.length_nil]
      rw [if_neg (by omega), if_pos (by omega)]
      rfl
    simp only [simpleSummary, hE, Bool.false_eq_true, if_false, h, List.isEmpty_cons,
      List.take_succ_cons, hsel, List.isEmpty_nil]
    simp [List.intercalate, List.append_assoc]

/-- Witness for `simple_summary_amended`: a three-sentence content whose
first two sentences survive and fit the budget, so the summary is their
period-space join plus a trailing period. -/
theorem simple_summary_amended_witness :
    simpleSummary ("abcdefghijk. lmnopqrstuvw. short.".toList)
      = "abcdefghijk. lmnopqrstuvw.".toList := by
  have h := (simple_summary_amended ("abcdefghijk. lmnopqrstuvw. short.".toList)
      (by decide)).2.2.2.2
      ("abcdefghijk".toList) ("lmnopqrstuvw".toList) [] (by decide) (by decide) (by decide)
  simpa using h

/- ## src/scripts/multi_source_collector.py — MultiSourceCollector -/

/-- A post as returned by one source's collector, before stamping; the
optional `source` field mirrors dict keys a collector may already set. -/
structure RawPost where
  title : List Char
  source : Option (List Char)
deriving DecidableEq

/-- A post after `collect_all_sources` stamped it with its origin. -/
structure StampedPost where
  title : List Char
  dataSource : List Char
  sourceDisplayName : List Char
  source : List Char
deriving DecidableEq

/-- One entry of `self.collectors` together with the behaviour of its
`collect_posts` call this run: either a post list or an unhandled
exception. -/
structure SourceRun where
  name : List Char
  displayName : List Char
  result : Except Unit (List RawPost)

/-- The stamping loop body (multi_source_collector.py lines 61–65):
`post['data_source'] = source_name`, `post['source_display_name'] =
source_display_name`, and `post['source']` only if absent. -/
def stampPost (name displayName : List Char) (p : RawPost) : StampedPost :=
  ⟨p.title, name, displayName, p.source.getD displayName⟩

/-- Embedding of `MultiSourceCollector.collect_all_sources`
(multi_source_collector.py lines 43–85): iterate the sources in order;
a source whose collector returns posts contributes its stamped posts and
a stats entry with their count; a source whose collector raises lands in
the `except` handler, contributing no posts and a stats entry of 0. -/
def collectAllSources : List SourceRun → List StampedPost × List (List Char × Nat)
  | [] => ([], [])
  | r :: rest =>
    let tail := collectAllSources rest
    match r.result with
    | .ok posts =>
        (posts.map (stampPost r.name r.displayName) ++ tail.1,
         (r.name, posts.length) :: tail.2)
    | .error _ => (tail.1, (r.name, 0) :: tail.2)

/-- C5: per-source isolation and stamping in `collect_all_sources`.
The aggregate equals the in-order concatenation of each non-failing
source's stamped posts (so a failing source contributes nothing and
leaves every other source's contribution unchanged — removing a failing
source from the run changes nothing but its stats entry), the stats map
records each source in order with its count or 0 on failure, and every
aggregated post carries the source identifier and display name of the
run that produced it. -/
theorem collect_all_sources_spec (runs : List SourceRun) :
    (collectAllSources runs).1
        = runs.flatMap (fun r =>
            match r.result with
            | .ok posts => posts.map (stampPost r.name r.displayName)
            | .error _ => [])
      ∧ (collectAllSources runs).2
        = runs.map (fun r =>
            (r.name, match r.result with | .ok posts => posts.length | .error _ => 0))
      ∧ (∀ pre bad suf, runs = pre ++ bad :: suf → bad.result = .error () →
          (collectAllSources runs).1 = (collectAllSources (pre ++ suf)).1)
      ∧ (∀ sp ∈ (collectAllSources runs).1, ∃ r ∈ runs, ∃ posts p,
          r.result = .ok posts ∧ p ∈ posts ∧ sp = stampPost r.name r.displayName p
            ∧ sp.dataSource = r.name ∧ sp.sourceDisplayName = r.displayName) := by
  have hfst : ∀ l : List SourceRun, (collectAllSources l).1
      = l.flatMap (fun r =>
          match r.result with
          | .ok posts => posts.map (stampPost r.name r.displayName)
          | .error _ => []) := by
    intro l
    induction l with
    | nil => rfl
    | cons r rest ih =>
      cases hr : r.result with
      | ok posts => simp [collectAllSources, hr, ih]
      | error e => simp [collectAllSources, hr, ih]
  have hsnd : ∀ l : List SourceRun, (collectAllSources l).2
      = l.map (fun r =>
          (r.name, match r.result with | .ok posts => posts.length | .error _ => 0)) := by
    intro l
    induction l with
    | nil => rfl
    | cons r rest ih =>
      cases hr : r.result with
      | ok posts => simp [collectAllSources, hr, ih]
      | error e => simp [collectAllSources, hr, ih]
  refine ⟨hfst runs, hsnd runs, ?_, ?_⟩
  · intro pre bad suf hsplit hbad
    rw [hfst runs, hfst (pre ++ suf), hsplit]
    simp [List.flatMap_append, hbad]
  · intro sp hsp
    rw [hfst runs] at hsp
    rcases List.mem_flatMap.mp hsp with ⟨r, hr, hmem⟩
    refine ⟨r, hr, ?_⟩
    cases hres : r.result with
    | ok posts =>
      rw [hres] at hmem
      rcases List.mem_map.mp hmem with ⟨p, hp, hstamp⟩
      exact ⟨posts, p, rfl, hp, hstamp.symm, by rw [← hstamp]; rfl, by rw [← hstamp]; rfl⟩
    | error e =>
      rw [hres] at hmem
      cases hmem

/-- A pair of concrete runs: one failing source and one healthy source. -/
def demoRuns : List SourceRun :=
  [⟨"naver_blog".toList, "네이버 블로그".toList, .error ()⟩,
   ⟨"ajunews_column".toList, "아주경제".toList, .ok [⟨"칼럼".toList, none⟩]⟩]

/-- Witness for `collect_all_sources_spec`: with the first source failing
and the second returning one post, the aggregate holds exactly the
second source's stamped post and the stats read 0 and 1. -/
theorem collect_all_sources_spec_witness :
    (collectAllSources demoRuns).1
        = [⟨"칼럼".toList, "ajunews_column".toList, "아주경제".toList, "아주경제".toList⟩]
      ∧ (collectAllSources demoRuns).2
        = [("naver_blog".toList, 0), ("ajunews_column".toList, 1)]
      ∧ (collectAllSources demoRuns).1
        = (collectAllSources [⟨"ajunews_column".toList, "아주경제".toList,
            .ok [⟨"칼럼".toList, none⟩]⟩]).1 := by
  have h := collect_all_sources_spec demoRuns
  refine ⟨by rw [h.1]; rfl, by rw [h.2.1]; rfl, ?_⟩
  exact h.2.2.1 [] ⟨"naver_blog".toList, "네이버 블로그".toList, .error ()⟩
    [⟨"ajunews_column".toList, "아주경제".toList, .ok [⟨"칼럼".toList, none⟩]⟩] rfl rfl

/- ## src/scripts/ajunews_collector.py — AjunewsCollector -/

/-- Embedding of `AjunewsCollector._load_or_generate_url_list`
(ajunews_collector.py lines 75–91).  `cacheLoad` is `some (updated, urls)`
when the cache file exists, parses as JSON, and its `updated` field
parses as a timestamp; it is `none` when the file is missing or any of
that raises (the `except` handler falls through).  A fresh cache —
`now - updated < timedelta(days=1)` — is returned verbatim; otherwise the
built-in static list is used. -/
def loadOrGenerateUrlList (now : Int) (cacheLoad : Option (Int × List (List Char)))
    (knownUrls : List (List Char)) : List (List Char) :=
  match cacheLoad with
  | some (updated, urls) => if now - updated < dayLen then urls else knownUrls
  | none => knownUrls

/-- C6: the cache is used verbatim exactly when it loaded and
`now - updated` is strictly below one day; a missing or unreadable cache,
or one a full day old or older, falls back to the static known-URL list.
At the boundary, a cache updated 23h59m ago (86340 s) is used and one
updated 24h01m ago (86460 s) is not. -/
theorem load_url_list_spec (now : Int) (knownUrls urls : List (List Char)) :
    (∀ updated, now - updated < dayLen →
        loadOrGenerateUrlList now (some (updated, urls)) knownUrls = urls)
    ∧ (∀ updated, dayLen ≤ now - updated →
        loadOrGenerateUrlList now (some (updated, urls)) knownUrls = knownUrls)
    ∧ loadOrGenerateUrlList now none knownUrls = knownUrls
    ∧ loadOrGenerateUrlList now (some (now - 86340, urls)) knownUrls = urls
    ∧ loadOrGenerateUrlList now (some (now - 86460, urls)) knownUrls = knownUrls := by
  refine ⟨?_, ?_, rfl, ?_, ?_⟩
  · intro updated h
    simp only [loadOrGenerateUrlList]
    rw [if_pos h]
  · intro updated h
    simp only [loadOrGenerateUrlList]
    rw [if_neg (not_lt.mpr h)]
  · simp only [loadOrGenerateUrlList]
    rw [if_pos (by simp only [dayLen]; omega)]
  · simp only [loadOrGenerateUrlList]
    rw [if_neg (by simp only [dayLen]; omega)]

/-- Witness for `load_url_list_spec` with concrete times and lists. -/
theorem load_url_list_spec_witness :
    loadOrGenerateUrlList 1000000 (some (999000, ["u".toList])) []
        = ["u".toList]
      ∧ loadOrGenerateUrlList 1000000 (some (0, ["u".toList])) [] = [] := by
  have h := load_url_list_spec 1000000 [] ["u".toList]
  exact ⟨h.1 999000 (by decide), h.2.1 0 (by decide)⟩

/-- One token of a simplified regex: a literal character (compared
case-insensitively, as all three patterns are compiled with
`re.IGNORECASE`) or `\s*`. -/
inductive Tok where
  | lit : Char → Tok
  | wsStar : Tok
deriving DecidableEq

/-- Fuelled matcher: can the token pattern match some prefix of `s`?
`\s*` is matched by trying zero characters first and then consuming
whitespace one character at a time, which recognizes exactly the regex
language.  Every step shrinks `ts.length + s.length`, so a fuel of
`ts.length + s.length + 1` keeps the zero-fuel case unreachable; the fuel
only makes the recursion structural. -/
def matchToksF : Nat → List Tok → List Char → Bool
  | 0, _, _ => false
  | _ + 1, [], _ => true
  | _ + 1, .lit _ :: _, [] => false
  | f + 1, .lit c :: ts, x :: xs => lowerC x == lowerC c && matchToksF f ts xs
  | f + 1, .wsStar :: ts, [] => matchToksF f ts []
  | f + 1, .wsStar :: ts, x :: xs =>
      matchToksF f ts (x :: xs) || (isWsC x && matchToksF f (.wsStar :: ts) xs)

/-- The matcher with adequate fuel. -/
def matchToks (ts : List Tok) (s : List Char) : Bool :=
  matchToksF (ts.length + s.length + 1) ts s

/-- Python's `re.search`: does the pattern match starting at any
position? -/
def searchToks (p : List Tok) : List Char → Bool
  | [] => matchToks p []
  | x :: xs => matchToks p (x :: xs) || searchToks p xs

/-- Literal tokens of a string. -/
def litToks (s : List Char) : List Tok :=
  s.map Tok.lit

/-- Pattern 1 of `_is_now_future_column`: `\[곽재원의\s*Now&Future\]`. -/
def colPat1 : List Tok :=
  litToks ("[곽재원의".toList) ++ [Tok.wsStar] ++ litToks ("Now&Future]".toList)

/-- Pattern 2: `\[곽재원의\s*Now\s*&\s*Future\]`. -/
def colPat2 : List Tok :=
  litToks ("[곽재원의".toList) ++ [Tok.wsStar] ++ litToks ("Now".toList)
    ++ [Tok.wsStar] ++ [Tok.lit '&'] ++ [Tok.wsStar] ++ litToks ("Future]".toList)

/-- Pattern 3: `곽재원의\s*Now&Future` (no brackets). -/
def colPat3 : List Tok :=
  litToks ("곽재원의".toList) ++ [Tok.wsStar] ++ litToks ("Now&Future".toList)

/-- Embedding of `AjunewsCollector._is_now_future_column`
(ajunews_collector.py lines 228–240): the title is accepted when any of
the three `re.IGNORECASE` patterns matches somewhere in it. -/
def isNowFutureColumn (title : List Char) : Bool :=
  searchToks colPat1 title || searchToks colPat2 title || searchToks colPat3 title

/-- Modelled from the claim's words: the title contains the bracketed
marker phrase, case-insensitively, with optional whitespace inside it and
either the ASCII `&` or the full-width `＆`. -/
def claimColumnMarker (title : List Char) : Bool :=
  searchToks (litToks ("[곽재원의".toList) ++ [Tok.wsStar] ++ litToks ("Now".toList)
      ++ [Tok.wsStar] ++ [Tok.lit '&'] ++ [Tok.wsStar] ++ litToks ("Future]".toList)) title
    || searchToks (litToks ("[곽재원의".toList) ++ [Tok.wsStar] ++ litToks ("Now".toList)
      ++ [Tok.wsStar] ++ [Tok.lit '＆'] ++ [Tok.wsStar] ++ litToks ("Future]".toList)) title

/-- C7 counterexample: a title carrying the bracketed marker with the
full-width ampersand satisfies the claimed predicate but is rejected by
the code — none of the three compiled patterns contains `＆`, and
`re.IGNORECASE` does not equate it with `&`. -/
theorem now_future_column_c7_counterexample :
    claimColumnMarker ("[곽재원의 Now＆Future] 칼럼".toList) = true
      ∧ isNowFutureColumn ("[곽재원의 Now＆Future] 칼럼".toList) = false
      ∧ isNowFutureColumn ("곽재원의 Now&Future 칼럼".toList) = true := by
  refine ⟨by decide, by decide, by decide⟩

theorem matchToksF_fuel_succ :
    ∀ (f : Nat) (ts : List Tok) (s : List Char),
      matchToksF f ts s = true → matchToksF (f + 1) ts s = true := by
  intro f
  induction f with
  | zero => intro ts s h; cases h
  | succ f ih =>
    intro ts s h
    match ts, s with
    | [], _ => rfl
    | .lit c :: ts, [] => cases h
    | .lit c :: ts, x :: xs =>
      simp only [matchToksF, Bool.and_eq_true] at h ⊢
      exact ⟨h.1, ih ts xs h.2⟩
    | .wsStar :: ts, [] =>
      simp only [matchToksF] at h ⊢
      exact ih ts [] h
    | .wsStar :: ts, x :: xs =>
      simp only [matchToksF, Bool.or_eq_true, Bool.and_eq_true] at h ⊢
      rcases h with h | ⟨hw, h⟩
      · exact Or.inl (ih ts (x :: xs) h)
      · exact Or.inr ⟨hw, ih (.wsStar :: ts) xs h⟩

theorem matchToksF_fuel_le (f g : Nat) (ts : List Tok) (s : List Char)
    (hle : f ≤ g) (h : matchToksF f ts s = true) : matchToksF g ts s = true := by
  induction g with
  | zero =>
    have : f = 0 := Nat.le_zero.mp hle
    subst this
    exact h
  | succ g ih =>
    rcases Nat.lt_or_ge f (g + 1) with hf | hf
    · exact matchToksF_fuel_succ g ts s (ih (Nat.lt_succ_iff.mp hf))
    · have : f = g + 1 := le_antisymm hle hf
      subst this
      exact h

theorem matchToksF_insert_ws :
    ∀ (f : Nat) (p q : List Tok) (s : List Char),
      matchToksF f (p ++ q) s = true →
        matchToksF (f + 1) (p ++ Tok.wsStar :: q) s = true := by
  intro f
  induction f with
  | zero => intro p q s h; cases h
  | succ f ih =>
    intro p q s h
    match p, s with
    | [], s =>
      cases s with
      | nil =>
        simp only [List.nil_append] at h ⊢
        simpa [matchToksF] using h
      | cons x xs =>
        simp only [List.nil_append] at h ⊢
        simp only [matchToksF, Bool.or_eq_true]
        exact Or.inl h
    | .lit c :: p', s =>
      cases s with
      | nil => cases h
      | cons x xs =>
        simp only [List.cons_append, matchToksF, Bool.and_eq_true] at h ⊢
        exact ⟨h.1, ih p' q xs h.2⟩
    | .wsStar :: p', s =>
      cases s with
      | nil =>
        simp only [List.cons_append, matchToksF] at h ⊢
        exact ih p' q [] h
      | cons x xs =>
        simp only [List.cons_append, matchToksF, Bool.or_eq_true, Bool.and_eq_true] at h ⊢
        rcases h with h | ⟨hw, h⟩
        · exact Or.inl (ih p' q (x :: xs) h)
        · exact Or.inr ⟨hw, ih (.wsStar :: p') q xs h⟩

theorem matchToks_insert_ws (p q : List Tok) (s : List Char)
    (h : matchToks (p ++ q) s = true) :
    matchToks (p ++ Tok.wsStar :: q) s = true := by
  unfold matchToks at h ⊢
  have h1 := matchToksF_insert_ws ((p ++ q).length + s.length + 1) p q s h
  refine matchToksF_fuel_le _ _ _ _ ?_ h1
  simp
  omega

theorem searchToks_insert_ws (p q : List Tok) :
    ∀ s : List Char, searchToks (p ++ q) s = true →
      searchToks (p ++ Tok.wsStar :: q) s = true := by
  intro s
  induction s with
  | nil =>
    intro h
    exact matchToks_insert_ws p q [] h
  | cons x xs ih =>
    intro h
    simp only [searchToks, Bool.or_eq_true] at h ⊢
    rcases h with h | h
    · exact Or.inl (matchToks_insert_ws p q (x :: xs) h)
    · exact Or.inr (ih h)

/-- The common stem `\[곽재원의\s*Now` of patterns 1 and 2. -/
def colPatA : List Tok :=
  litToks ("[곽재원의".toList) ++ [Tok.wsStar] ++ litToks ("Now".toList)

/-- The common tail `Future\]` of patterns 1 and 2. -/
def colPatB : List Tok :=
  litToks ("Future]".toList)

theorem searchToks_pat1_pat2 (t : List Char)
    (h : searchToks colPat1 t = true) : searchToks colPat2 t = true := by
  have e1 : colPat1 = colPatA ++ (Tok.lit '&' :: colPatB) := by rfl
  rw [e1] at h
  have h2 := searchToks_insert_ws colPatA (Tok.lit '&' :: colPatB) t h
  have e2 : colPatA ++ Tok.wsStar :: Tok.lit '&' :: colPatB
      = (colPatA ++ [Tok.wsStar, Tok.lit '&']) ++ colPatB := by rfl
  rw [e2] at h2
  have h3 := searchToks_insert_ws (colPatA ++ [Tok.wsStar, Tok.lit '&']) colPatB t h2
  have e3 : (colPatA ++ [Tok.wsStar, Tok.lit '&']) ++ Tok.wsStar :: colPatB
      = colPat2 := by rfl
  rw [e3] at h3
  exact h3

/-- C7 (amended): `_is_now_future_column` accepts a title exactly when,
case-insensitively, it contains the bracketed marker with optional
whitespace after `곽재원의` and around the ASCII `&`
(`\[곽재원의\s*Now\s*&\s*Future\]`), or the unbracketed marker
`곽재원의\s*Now&Future` — brackets are not required, whitespace around
the ampersand is tolerated only inside the bracketed form, and only the
ASCII `&` (never the full-width `＆`) is recognized.  Pattern 1 of the
code is subsumed by pattern 2, so the disjunction of patterns 2 and 3 is
the whole acceptance condition. -/
theorem now_future_column_amended (t : List Char) :
    isNowFutureColumn t = (searchToks colPat2 t || searchToks colPat3 t) := by
  unfold isNowFutureColumn
  cases h1 : searchToks colPat1 t with
  | false => rw [Bool.false_or]
  | true =>
    rw [searchToks_pat1_pat2 t h1]
    simp

/- ### AjunewsCollector.collect_posts -/

/-- An accepted article: the fields `_scrape_article` builds, with the
publication year kept as its `_is_valid_post` parse outcome
(`some y` when `datetime.fromisoformat` succeeds on a non-empty string,
`none` when the string is empty or unparseable). -/
structure AjPost where
  title : List Char
  url : List Char
  pubYear : Option Int
deriving DecidableEq

/-- What one candidate URL's `_scrape_article` call did:
* `error` — the request or parsing raised (caught by `except … continue`);
* `ok none` — the page loaded but `_is_now_future_column` rejected the
  title, so `_scrape_article` returned `None`;
* `ok (some p)` — an article record was returned. -/
def AjItem : Type := Except Unit (Option AjPost)

/-- Embedding of `AjunewsCollector._is_valid_post` (ajunews_collector.py
lines 242–253): accept when the year parses and equals the filter year,
or — fail-open — when the `published` field is empty or unparseable. -/
def isValidAjPost (yearFilter : Int) (p : AjPost) : Bool :=
  match p.pubYear with
  | some y => decide (y = yearFilter)
  | none => true

/-- The collection loop of `AjunewsCollector.collect_posts`
(ajunews_collector.py lines 50–66): skip failures and rejected pages,
append accepted valid posts, and stop as soon as `maxPosts` posts have
been accepted. -/
def ajCollectLoop (yearFilter : Int) (maxPosts : Nat) :
    List AjItem → List AjPost → List AjPost
  | [], acc => acc.reverse
  | it :: rest, acc =>
    match it with
    | .error _ => ajCollectLoop yearFilter maxPosts rest acc
    | .ok none => ajCollectLoop yearFilter maxPosts rest acc
    | .ok (some p) =>
      if isValidAjPost yearFilter p then
        if maxPosts ≤ acc.length + 1 then (p :: acc).reverse
        else ajCollectLoop yearFilter maxPosts rest (p :: acc)
      else ajCollectLoop yearFilter maxPosts rest acc

/-- Embedding of `AjunewsCollector.collect_posts` (ajunews_collector.py
lines 43–73): only the first `max_posts * 2` candidate URLs are visited
(`url_list[:self.max_posts * 2]`). -/
def ajCollectPosts (yearFilter : Int) (maxPosts : Nat) (items : List AjItem) :
    List AjPost :=
  ajCollectLoop yearFilter maxPosts (items.take (maxPosts * 2)) []

theorem ajCollectLoop_length_le (yearFilter : Int) (maxPosts : Nat) :
    ∀ (items : List AjItem) (acc : List AjPost), acc.length < maxPosts →
      (ajCollectLoop yearFilter maxPosts items acc).length ≤ maxPosts := by
  intro items
  induction items with
  | nil =>
    intro acc hacc
    simpa [ajCollectLoop] using Nat.le_of_lt hacc
  | cons it rest ih =>
    intro acc hacc
    match it with
    | .error _ => exact ih acc hacc
    | .ok none => exact ih acc hacc
    | .ok (some p) =>
      simp only [ajCollectLoop]
      by_cases hv : isValidAjPost yearFilter p
      · rw [if_pos hv]
        by_cases hm : maxPosts ≤ acc.length + 1
        · rw [if_pos hm]
          simpa using hacc
        · rw [if_neg hm]
          exact ih (p :: acc) (by simpa using Nat.lt_of_not_le hm)
      · rw [if_neg hv]
        exact ih acc hacc

/-- C10: `collect_posts` never looks past the first `2 × max_posts`
candidate URLs — two candidate lists agreeing on that window are
indistinguishable to it — and it returns at most `max_posts` accepted
posts. -/
theorem aj_collect_posts_spec (yearFilter : Int) (maxPosts : Nat)
    (items : List AjItem) :
    (∀ other : List AjItem, items.take (maxPosts * 2) = other.take (maxPosts * 2) →
        ajCollectPosts yearFilter maxPosts items = ajCollectPosts yearFilter maxPosts other)
      ∧ (ajCollectPosts yearFilter maxPosts items).length ≤ maxPosts := by
  constructor
  · intro other hagree
    unfold ajCollectPosts
    rw [hagree]
  · cases maxPosts with
    | zero => simp [ajCollectPosts, ajCollectLoop]
    | succ m =>
      have h := ajCollectLoop_length_le yearFilter (m + 1)
        (items.take ((m + 1) * 2)) [] (Nat.succ_pos m)
      simpa [ajCollectPosts] using h

/-- Witness for `aj_collect_posts_spec`: with `max_posts = 1`, a
candidate list whose third entry would be a valid post behaves exactly
like its 2-element window, and the extra valid post at position 3 is
never seen. -/
theorem aj_collect_posts_spec_witness :
    ajCollectPosts 2025 1 [Except.error (), Except.ok none,
        Except.ok (some ⟨"칼럼".toList, "u3".toList, some 2025⟩)]
      = ajCollectPosts 2025 1 [Except.error (), Except.ok none]
    ∧ (ajCollectPosts 2025 1 [Except.error (), Except.ok none,
        Except.ok (some ⟨"칼럼".toList, "u3".toList, some 2025⟩)]).length ≤ 1 := by
  have h := aj_collect_posts_spec 2025 1 [Except.error (), Except.ok none,
    Except.ok (some ⟨"칼럼".toList, "u3".toList, some 2025⟩)]
  exact ⟨h.1 [Except.error (), Except.ok none] rfl, h.2⟩

/- ## src/scripts/report_generator.py — ReportGenerator -/

/-- A classified post as consumed by `_create_report_content`.  `pub` is
the `_parse_date` outcome for its `published` string: `some d` when
`date_parser.parse` succeeds, `none` when it raises and the function
returns `datetime.min` — the minimum possible date, strictly below every
parseable timestamp. -/
structure RepPost where
  title : List Char
  link : List Char
  summary : List Char
  pub : Option Int
deriving DecidableEq

/-- The fixed canonical category sequence of `_create_report_content`
(report_generator.py line 69). -/
def categoryOrder : List (List Char) :=
  ["AI 기술".toList, "과학 기술".toList, "연구 개발".toList, "산업 동향".toList,
   "정책 및 규제".toList, "기타".toList]

/-- The category sequence the body iterates (report_generator.py lines
70–72): canonical categories present in the map, then the map's remaining
categories in its own order. -/
def sortedCategories (m : List (List Char × List RepPost)) : List (List Char) :=
  categoryOrder.filter (fun c => (m.map Prod.fst).contains c)
    ++ (m.map Prod.fst).filter (fun c => !categoryOrder.contains c)

/-- Dictionary lookup `categorized_posts[category]` on the association
list (keys are unique in a Python dict; `[]` is a junk value for the
impossible missing-key case). -/
def lookupPosts (m : List (List Char × List RepPost)) (c : List Char) : List RepPost :=
  match m.find? (fun p => p.1 == c) with
  | some p => p.2
  | none => []

/-- Order on `_parse_date` keys: `none` plays `datetime.min`, below every
parsed timestamp. -/
def dleB : Option Int → Option Int → Bool
  | none, _ => true
  | some _, none => false
  | some a, some b => decide (a ≤ b)

/-- Strict version of `dleB`. -/
def dltB (a b : Option Int) : Bool :=
  dleB a b && !dleB b a

/-- Stable descending insertion: a post moves past exactly the posts with
a strictly greater key, so ties keep their original relative order — the
behaviour of Python's stable `sorted(..., reverse=True)`. -/
def insertPostDesc (p : RepPost) : List RepPost → List RepPost
  | [] => [p]
  | q :: qs => if dltB p.pub q.pub then q :: insertPostDesc p qs else p :: q :: qs

/-- Stable descending sort by `_parse_date` key, modelling
`sorted(posts, key=lambda p: self._parse_date(p.get('published', '')), reverse=True)`
(report_generator.py line 85). -/
def sortPostsDesc : List RepPost → List RepPost
  | [] => []
  | p :: ps => insertPostDesc p (sortPostsDesc ps)

/-- The category sections of the rendered body, in document order
(report_generator.py lines 74–87): each category of `sortedCategories`
whose post list is non-empty (`if not posts: continue`), paired with its
date-descending post list. -/
def reportSections (m : List (List Char × List RepPost)) :
    List (List Char × List RepPost) :=
  ((sortedCategories m).filter (fun c => !(lookupPosts m c).isEmpty)).map
    (fun c => (c, sortPostsDesc (lookupPosts m c)))

theorem dleB_total (a b : Option Int) : dleB a b = true ∨ dleB b a = true := by
  cases a with
  | none => exact Or.inl rfl
  | some x => cases b with
    | none => exact Or.inr rfl
    | some y =>
      simp only [dleB, decide_eq_true_eq]
      omega

theorem dleB_not_dltB (a b : Option Int) (h : dltB a b = false) : dleB b a = true := by
  rcases dleB_total a b with hab | hba
  · unfold dltB at h
    rw [hab, Bool.true_and] at h
    cases hba : dleB b a with
    | true => rfl
    | false => rw [hba] at h; cases h
  · exact hba

theorem dleB_trans (a b c : Option Int) (h1 : dleB a b = true) (h2 : dleB b c = true) :
    dleB a c = true := by
  cases a with
  | none => rfl
  | some x => cases b with
    | none => simp [dleB] at h1
    | some y => cases c with
      | none => simp [dleB] at h2
      | some z =>
        simp only [dleB, decide_eq_true_eq] at h1 h2 ⊢
        omega

theorem dltB_dleB (a b : Option Int) (h : dltB a b = true) : dleB a b = true := by
  simp only [dltB, Bool.and_eq_true] at h
  exact h.1

theorem insertPostDesc_perm (p : RepPost) (l : List RepPost) :
    (insertPostDesc p l).Perm (p :: l) := by
  induction l with
  | nil => exact List.Perm.refl _
  | cons q qs ih =>
    simp only [insertPostDesc]
    by_cases h : dltB p.pub q.pub = true
    · rw [if_pos h]
      exact ((ih.cons q).trans (List.Perm.swap p q qs))
    · rw [if_neg h]

theorem sortPostsDesc_perm (l : List RepPost) : (sortPostsDesc l).Perm l := by
  induction l with
  | nil => exact List.Perm.refl _
  | cons p ps ih =>
    exact (insertPostDesc_perm p (sortPostsDesc ps)).trans (ih.cons p)

theorem insertPostDesc_pairwise (p : RepPost) (l : List RepPost)
    (h : l.Pairwise (fun a b => dleB b.pub a.pub = true)) :
    (insertPostDesc p l).Pairwise (fun a b => dleB b.pub a.pub = true) := by
  induction l with
  | nil => simp [insertPostDesc]
  | cons q qs ih =>
    rcases List.pairwise_cons.mp h with ⟨hq, hqs⟩
    simp only [insertPostDesc]
    by_cases hd : dltB p.pub q.pub = true
    · rw [if_pos hd]
      refine List.pairwise_cons.mpr ⟨?_, ih hqs⟩
      intro x hx
      have hx' : x ∈ p :: qs := (insertPostDesc_perm p qs).mem_iff.mp hx
      rcases List.mem_cons.mp hx' with hxe | hxm
      · subst hxe
        exact dltB_dleB _ _ hd
      · exact hq x hxm
    · rw [if_neg hd]
      refine List.pairwise_cons.mpr ⟨?_, h⟩
      intro x hx
      have hqp : dleB q.pub p.pub = true := dleB_not_dltB _ _ (Bool.not_eq_true _ ▸ hd)
      rcases List.mem_cons.mp hx with hxe | hxm
      · subst hxe
        exact hqp
      · exact dleB_trans _ _ _ (hq x hxm) hqp

theorem sortPostsDesc_pairwise (l : List RepPost) :
    (sortPostsDesc l).Pairwise (fun a b => dleB b.pub a.pub = true) := by
  induction l with
  | nil => simp [sortPostsDesc]
  | cons p ps ih => exact insertPostDesc_pairwise p (sortPostsDesc ps) ih

/-- C8: the rendered body lists the non-empty canonical categories first,
in the fixed canonical order, followed by the non-empty non-canonical
categories in the map's own order; and every section's posts are a
permutation of that category's posts arranged in descending `_parse_date`
order, with every unparseable-date post (key `datetime.min`) after every
parseable one. -/
theorem report_sections_spec (m : List (List Char × List RepPost)) :
    (reportSections m).map Prod.fst
        = categoryOrder.filter
            (fun c => !(lookupPosts m c).isEmpty && (m.map Prod.fst).contains c)
          ++ (m.map Prod.fst).filter
            (fun c => !(lookupPosts m c).isEmpty && !categoryOrder.contains c)
      ∧ (∀ c posts, (c, posts) ∈ reportSections m →
          posts.Perm (lookupPosts m c)
            ∧ posts.Pairwise (fun p q => dleB q.pub p.pub = true)
            ∧ posts.Pairwise (fun p q => p.pub = none → q.pub = none)) := by
  constructor
  · have h1 : (reportSections m).map Prod.fst
        = (sortedCategories m).filter (fun c => !(lookupPosts m c).isEmpty) := by
      unfold reportSections
      have hcomp : (Prod.fst ∘ fun c => (c, sortPostsDesc (lookupPosts m c)))
          = @id (List Char) := rfl
      rw [List.map_map, hcomp, List.map_id]
    rw [h1, sortedCategories, List.filter_append, List.filter_filter, List.filter_filter]
  · intro c posts hmem
    rcases List.mem_map.mp hmem with ⟨c', hc', heq⟩
    have hcc : c' = c := congrArg Prod.fst heq
    have hpp : posts = sortPostsDesc (lookupPosts m c') := (congrArg Prod.snd heq).symm
    subst hcc
    subst hpp
    refine ⟨sortPostsDesc_perm _, sortPostsDesc_pairwise _, ?_⟩
    refine (sortPostsDesc_pairwise _).imp ?_
    intro a b hle ha
    rw [ha] at hle
    cases hb : b.pub with
    | none => rfl
    | some y => rw [hb] at hle; simp [dleB] at hle

/-- A two-category concrete map: `기타` with one post, `AI 기술` with an
unparseable-date post listed before a parseable one. -/
def demoCategorized : List (List Char × List RepPost) :=
  [("기타".toList, [⟨"포스트1".toList, "l1".toList, "요약1".toList, some 5⟩]),
   ("AI 기술".toList,
    [⟨"포스트2".toList, "l2".toList, "요약2".toList, none⟩,
     ⟨"포스트3".toList, "l3".toList, "요약3".toList, some 7⟩])]

/-- Witness for `report_sections_spec`: in the demo map the `AI 기술`
section comes first with its parseable-date post before the unparseable
one, and its post list satisfies the three ordering conclusions. -/
theorem report_sections_spec_witness :
    (reportSections demoCategorized).map Prod.fst = ["AI 기술".toList, "기타".toList]
      ∧ ([⟨"포스트3".toList, "l3".toList, "요약3".toList, some 7⟩,
          ⟨"포스트2".toList, "l2".toList, "요약2".toList, none⟩] : List RepPost).Perm
            (lookupPosts demoCategorized ("AI 기술".toList))
      ∧ ([⟨"포스트3".toList, "l3".toList, "요약3".toList, some 7⟩,
          ⟨"포스트2".toList, "l2".toList, "요약2".toList, none⟩] : List RepPost).Pairwise
            (fun p q => dleB q.pub p.pub = true) := by
  have h := report_sections_spec demoCategorized
  have h2 := h.2 ("AI 기술".toList)
    [⟨"포스트3".toList, "l3".toList, "요약3".toList, some 7⟩,
     ⟨"포스트2".toList, "l2".toList, "요약2".toList, none⟩] (by decide)
  exact ⟨by decide, h2.1, h2.2.1⟩
